import Mathlib

/-!
Shallow embedding of `src/letterboxd_streaming.py` (a bounded-concurrency
fetch-and-cache pipeline) and proofs about it.

Python strings are modelled as Lean `String`s, but every string operation the
program uses (`startswith`, `lower`, `strip`, `split`, `title`, `replace`,
slicing) is re-implemented here over the underlying `List Char` so that all
definitions reduce in the kernel; each helper mirrors the corresponding
Python `str` method on the ASCII data the program manipulates.

The external collaborators (Selenium driver, the remote site's HTML, the
filesystem) are modelled at their interface boundary: a page fetch is a
function `String → Except String FilmPage` (an exception or a parsed page
structure), driver creation is a `Bool` (`setup_driver` returning a driver or
`None`), and the durable cache file is an `Option String` (absent or raw
textual content).
-/

namespace LbdStreaming

/-- Python `s.startswith(pre)`. -/
def pyStartsWith (s pre : String) : Bool :=
  pre.data.isPrefixOf s.data

/-- Python `s.lower()` (ASCII case folding, which covers the data in play). -/
def pyLower (s : String) : String :=
  String.mk (s.data.map Char.toLower)

/-- Python `s.strip()`: remove leading and trailing whitespace. -/
def pyStrip (s : String) : String :=
  String.mk (((s.data.dropWhile Char.isWhitespace).reverse.dropWhile Char.isWhitespace).reverse)

/-- Helper for splitting a character list at a separator character. -/
def splitCharsGo (sep : Char) : List Char → List Char → List (List Char)
  | acc, [] => [acc.reverse]
  | acc, c :: cs =>
    if c = sep then acc.reverse :: splitCharsGo sep [] cs
    else splitCharsGo sep (c :: acc) cs

/-- Python `s.split(sep)` for a one-character separator. -/
def pySplit (s : String) (sep : Char) : List String :=
  (splitCharsGo sep [] s.data).map String.mk

/-- Python `s.replace(old, new)` for one-character `old` and `new`. -/
def pyReplaceChar (s : String) (old new : Char) : String :=
  String.mk (s.data.map (fun c => if c = old then new else c))

/-- Helper for Python `s.title()`: the flag records whether the previous
character was alphabetic (cased). -/
def pyTitleGo : Bool → List Char → List Char
  | _, [] => []
  | prevAlpha, c :: cs =>
    (if prevAlpha then c.toLower else c.toUpper) :: pyTitleGo c.isAlpha cs

/-- Python `s.title()`: uppercase every character that follows a
non-alphabetic character, lowercase the rest. -/
def pyTitle (s : String) : String :=
  String.mk (pyTitleGo false s.data)

/-- Python `s[:n]`: the first `n` characters. -/
def pySlice (s : String) (n : Nat) : String :=
  String.mk (s.data.take n)

/-- Python `s[n:]`: drop the first `n` characters. -/
def pyDrop (s : String) (n : Nat) : String :=
  String.mk (s.data.drop n)

/-- Python `sub in s`: substring containment, by scanning every suffix. -/
def pyContains : List Char → List Char → Bool
  | _, [] => false
  | sub, c :: cs => sub.isPrefixOf (c :: cs) || pyContains sub cs

/-- Python `sub in s` on strings (with the convention of `pyContains`, a
non-empty haystack is scanned suffix by suffix; the program only ever asks
about non-empty haystacks). -/
def pyContainsSub (s sub : String) : Bool :=
  sub.data.isPrefixOf s.data || pyContains sub.data s.data

/-- Python `', '.join(l)` generalised to any separator. -/
def pyJoin (sep : String) (l : List String) : String :=
  String.mk (List.intercalate sep.data (l.map String.data))

/-- A film discovered by `scrape_letterboxd_popular`: a dict
`{'title': ..., 'url': ...}` (the url is the stable identity). -/
structure Film where
  title : String
  url : String
deriving DecidableEq, Repr

/-- A persisted cache record `{'title': ..., 'streaming': ...}` as written at
lines 278-281 of the source. -/
structure CacheEntry where
  title : String
  streaming : String
deriving DecidableEq, Repr

/-- The in-memory cache: a Python dict from film url to its record, modelled
as an association list in insertion order (Python dicts preserve insertion
order and key lookup is exact string equality). -/
abbrev Cache := List (String × CacheEntry)

/-- Python `cache[url] = entry`: overwrite in place if the key exists,
otherwise append at the end (dict insertion-order semantics). -/
def insertCache : Cache → String → CacheEntry → Cache
  | [], url, entry => [(url, entry)]
  | (k, v) :: rest, url, entry =>
    if k = url then (url, entry) :: rest
    else (k, v) :: insertCache rest url entry

/-- The result dict produced per film: `{'index', 'title', 'url',
'streaming', 'cached'}`. -/
structure FilmResult where
  index : Nat
  title : String
  url : String
  streaming : String
  cached : Bool
deriving DecidableEq, Repr

/-- One `<p class="service">` element inside the services section: only its
class list matters to the scraper. -/
structure ServicePara where
  classes : List String
deriving DecidableEq, Repr

/-- The `div#watch` element of a film page, seen through the only accessors
the scraper uses: the optional `section.services` with its service
paragraphs, and the div's stripped text content. -/
structure WatchDiv where
  services : Option (List ServicePara)
  text : String
deriving DecidableEq, Repr

/-- A film detail page, seen through the only accessor the scraper uses:
the optional `div#watch`. -/
structure FilmPage where
  watch : Option WatchDiv
deriving DecidableEq, Repr

/-- Lines 152-158: from a service paragraph's class list, the first class
that starts with a hyphen and is not `-showmore` yields the service name
(hyphens to spaces, title-cased); absent such a class the paragraph yields
nothing. -/
def classServiceName (classes : List String) : Option String :=
  match classes.find? (fun cls => pyStartsWith cls "-" && cls ≠ "-showmore") with
  | some cls => some (pyTitle (pyReplaceChar (pyDrop cls 1) '-' ' '))
  | none => none

/-- Lines 161-165: drop duplicate service names while preserving first-seen
order (`unique_services`). -/
def uniqueServices (l : List String) : List String :=
  l.foldl (fun acc s => if s ∈ acc then acc else acc ++ [s]) []

/-- Lines 170-176: the fallback when the watch div has no services section:
if the div's text is non-empty and does not contain "trailer" (lowercased),
split it into stripped non-empty lines, drop the lines that are exactly
"where to watch" or "trailer" (lowercased), and return the first remaining
line truncated to 100 characters. -/
def watchTextFallback (text : String) : Option String :=
  if text ≠ "" && !(pyContainsSub (pyLower text) "trailer") then
    match ((pySplit text '\n').filter (fun line => pyStrip line ≠ "")
            |>.map pyStrip
            |>.filter (fun line =>
                pyLower line ≠ "where to watch" && pyLower line ≠ "trailer")) with
    | line :: _ => some (pySlice line 100)
    | [] => none
  else none

/-- Lines 137-179: the body of `scrape_streaming_info` after the page was
retrieved — walk the parsed page and produce the availability string, with
"No streaming info available" as the fall-through answer. -/
def parseWatchPage (page : FilmPage) : String :=
  match page.watch with
  | none => "No streaming info available"
  | some wd =>
    match wd.services with
    | some paras =>
      match uniqueServices (paras.filterMap (fun p => classServiceName p.classes)) with
      | [] => "No streaming info available"
      | s :: rest => pyJoin ", " (s :: rest)
    | none =>
      match watchTextFallback wd.text with
      | some line => line
      | none => "No streaming info available"

/-- Lines 127-182, `scrape_streaming_info`: retrieving the page may raise (a
network/driver exception, modelled as `Except.error`); the surrounding
`try/except` turns any exception `e` into the string `"Error: " ++ e`, so the
function always returns a plain string to its caller. -/
def scrape_streaming_info (fetchPage : String → Except String FilmPage)
    (film_url : String) : String :=
  match fetchPage film_url with
  | Except.error e => "Error: " ++ e
  | Except.ok page => parseWatchPage page

/-- Lines 185-217, `scrape_film_worker`: check the cache first and, on a hit,
synthesize the result from the cache entry (`streaming` from the entry, the
title from the current run's `film`) without touching the fetch subsystem.
Otherwise attempt to create a driver (`driverOk` models `setup_driver`
succeeding); on failure return an error-valued result; on success fetch and
parse the film page. The second component is the fetch log: the urls for
which a driver was acquired and an availability lookup ran (at most one
entry, present exactly on the fetch path). -/
def scrape_film_worker (film_index : Nat) (film : Film) (cache : Cache)
    (driverOk : Bool) (fetchPage : String → Except String FilmPage) :
    FilmResult × List String :=
  match cache.lookup film.url with
  | some entry =>
    (⟨film_index, film.title, film.url, entry.streaming, true⟩, [])
  | none =>
    if driverOk then
      (⟨film_index, film.title, film.url,
        scrape_streaming_info fetchPage film.url, false⟩, [film.url])
    else
      (⟨film_index, film.title, film.url, "Error: Could not create driver", false⟩, [])

/-- Lines 271-275: the cacheability predicate `should_cache` exactly as the
source writes it — the string is non-empty (Python truthiness), does not
start with `"Not streaming"`, and does not start with `"Error:"`. -/
def should_cache (streaming : String) : Bool :=
  streaming ≠ "" &&
  !(pyStartsWith streaming "Not streaming") &&
  !(pyStartsWith streaming "Error:")

/-- The pair `futures[future] = (i + 1, film)` built at lines 256-259: the
1-based ordinal and the film of one submitted task. -/
structure TaskInfo where
  index : Nat
  film : Film
deriving DecidableEq, Repr

/-- Lines 256-259: one task is submitted per discovered film, carrying the
1-based ordinal `i + 1` in discovery order. -/
def mkTasks (films : List Film) : List TaskInfo :=
  (List.enumFrom 1 films).map (fun p => ⟨p.1, p.2⟩)

/-- Lines 262-297, the body of the `as_completed` loop for one completed
future: `future.result()` either returns the worker's result dict or raises
(modelled as `Except.error e`, handled by the `except` branch, which
synthesizes an error-valued result from `futures[future]`). A returned
result that was not served from cache and passes `should_cache` is written
into the cache (and the cache file is saved). Returns the result appended to
`results` and the updated cache. -/
def processFuture (cache : Cache) (info : TaskInfo)
    (outcome : Except String FilmResult) : FilmResult × Cache :=
  match outcome with
  | Except.error e =>
    (⟨info.index, info.film.title, info.film.url, "Error: " ++ e, false⟩, cache)
  | Except.ok r =>
    if !r.cached && should_cache r.streaming then
      (r, insertCache cache r.url ⟨r.title, r.streaming⟩)
    else
      (r, cache)

/-- Lines 262-297: the whole `as_completed` collection loop, processing the
completed futures in their (arbitrary) completion order and threading the
cache through; results are appended in completion order. -/
def collectLoop : Cache → List (TaskInfo × Except String FilmResult) →
    List FilmResult × Cache
  | cache, [] => ([], cache)
  | cache, (info, outcome) :: rest =>
    let step := processFuture cache info outcome
    let tail := collectLoop step.2 rest
    (step.1 :: tail.1, tail.2)

/-- One legal schedule of the whole pipeline (main, lines 250-297): the
tasks of `mkTasks` run one at a time in submission order, each worker
observing the cache as left by the completed processing of every earlier
task. Each step runs `scrape_film_worker` on the current cache and then the
main loop's completion handling (`processFuture` with the worker's returned
dict). Returns the results in order, the final cache, and the concatenated
fetch log. Workers never raise (see `scrape_film_worker`), so every outcome
is `Except.ok`. -/
def runSeq (driverOk : Bool) (fetchPage : String → Except String FilmPage) :
    Cache → List TaskInfo → List FilmResult × Cache × List String
  | cache, [] => ([], cache, [])
  | cache, info :: rest =>
    let w := scrape_film_worker info.index info.film cache driverOk fetchPage
    let step := processFuture cache info (Except.ok w.1)
    let tail := runSeq driverOk fetchPage step.2 rest
    (step.1 :: tail.1, tail.2.1, w.2 ++ tail.2.2)

/-- Lines 299-300: `results.sort(key=lambda x: x['index'])` — a stable sort
of the collected results by their 1-based ordinal. -/
def sortByIndex (rs : List FilmResult) : List FilmResult :=
  rs.mergeSort (fun a b => a.index ≤ b.index)

/-- The view of a cache that forgets the stored titles: each binding reduced
to its url and its `streaming` string. Two caches with the same view differ
at most in their persisted `title` fields. -/
def cacheStreams (c : Cache) : List (String × String) :=
  c.map (fun p => (p.1, p.2.streaming))

/-- The `max_workers=3` bound passed to `ThreadPoolExecutor` at line 254. -/
def mainMaxWorkers : Nat := 3

/-- A state of the worker pool created at line 254: tasks not yet started
(in submission order), tasks currently in flight, tasks completed. Tasks are
identified by their ordinal. -/
structure PoolState where
  pending : List Nat
  running : List Nat
  finished : List Nat
deriving DecidableEq, Repr

/-- Operational model of `ThreadPoolExecutor(max_workers=w)` (line 254),
following its documented contract: the executor may start the next submitted
task only while fewer than `w` tasks are in flight, and any in-flight task
may complete. -/
inductive PoolStep (w : Nat) : PoolState → PoolState → Prop
  | dispatch (t : Nat) (rest running finished : List Nat)
      (hfree : running.length < w) :
      PoolStep w ⟨t :: rest, running, finished⟩ ⟨rest, t :: running, finished⟩
  | complete (pending r1 r2 finished : List Nat) (t : Nat) :
      PoolStep w ⟨pending, r1 ++ t :: r2, finished⟩ ⟨pending, r1 ++ r2, t :: finished⟩

/-- Reflexive-transitive closure of `PoolStep`: the states a run of the pool
can pass through from a given starting state. -/
inductive PoolReach (w : Nat) (init : PoolState) : PoolState → Prop
  | refl : PoolReach w init init
  | tail {s s' : PoolState} : PoolReach w init s → PoolStep w s s' → PoolReach w init s'

/-- The pool state right after line 259: every task submitted (pending, in
submission order), none started. -/
def initPool (tasks : List Nat) : PoolState :=
  ⟨tasks, [], []⟩

/-- Lowercase hexadecimal digit, as `json.dump` emits inside escapes. -/
def hexDigitChar (n : Nat) : Char :=
  if n < 10 then Char.ofNat (48 + n) else Char.ofNat (87 + n)

/-- Four lowercase hex digits for a 16-bit code unit. -/
def uDigits (n : Nat) : List Char :=
  [hexDigitChar (n / 4096 % 16), hexDigitChar (n / 256 % 16),
   hexDigitChar (n / 16 % 16), hexDigitChar (n % 16)]

/-- A JSON escape of the form backslash-u followed by four lowercase hex
digits, for a 16-bit code unit. -/
def uEscape (n : Nat) : List Char :=
  '\\' :: 'u' :: uDigits n

/-- How `json.dump` (with its default `ensure_ascii=True`) writes one
character inside a JSON string: the two-character escapes for quote,
backslash and the five named control characters; printable ASCII verbatim;
everything else as backslash-u escapes, non-BMP characters as a UTF-16
surrogate pair. -/
def encodeChar (c : Char) : List Char :=
  let n := c.toNat
  if n = 34 then ['\\', '"']
  else if n = 92 then ['\\', '\\']
  else if n = 8 then ['\\', 'b']
  else if n = 9 then ['\\', 't']
  else if n = 10 then ['\\', 'n']
  else if n = 12 then ['\\', 'f']
  else if n = 13 then ['\\', 'r']
  else if 32 ≤ n ∧ n ≤ 126 then [c]
  else if n < 65536 then uEscape n
  else uEscape (55296 + (n - 65536) / 1024) ++ uEscape (56320 + (n - 65536) % 1024)

/-- A JSON string literal: quote, escaped characters, quote. -/
def dumpString (s : String) : List Char :=
  '"' :: s.data.flatMap encodeChar ++ ['"']

/-- The serialized inner record of one cache entry, exactly as
`json.dump(cache, f, indent=2)` lays it out at nesting depth one:
`\x7b "title": ..., "streaming": ... \x7d` over three indented lines. -/
def dumpEntryValue (e : CacheEntry) : List Char :=
  '{' :: '\n' :: (' ' :: ' ' :: ' ' :: ' ' :: dumpString "title") ++
  (':' :: ' ' :: dumpString e.title) ++
  (',' :: '\n' :: ' ' :: ' ' :: ' ' :: ' ' :: dumpString "streaming") ++
  (':' :: ' ' :: dumpString e.streaming) ++
  ('\n' :: ' ' :: ' ' :: ['}'])

/-- One serialized top-level binding: two-space indent, the url key, and the
inner record. -/
def dumpPair (p : String × CacheEntry) : List Char :=
  ' ' :: ' ' :: dumpString p.1 ++ ':' :: ' ' :: dumpEntryValue p.2

/-- The serialized bindings joined by `",\n"` (the item separator `json.dump`
uses under `indent=2`). -/
def dumpPairs : List (String × CacheEntry) → List Char
  | [] => []
  | [p] => dumpPair p
  | p :: q :: rest => dumpPair p ++ ',' :: '\n' :: dumpPairs (q :: rest)

/-- `json.dump(cache, f, indent=2)` at line 40: the full file content written
for a cache mapping. -/
def json_dump_cache (cache : Cache) : String :=
  match cache with
  | [] => String.mk ['{', '}']
  | _ => String.mk ('{' :: '\n' :: dumpPairs cache ++ '\n' :: ['}'])

/-- JSON insignificant whitespace. -/
def jsonWs (c : Char) : Bool :=
  c = ' ' || c = '\t' || c = '\n' || c = '\r'

/-- Skip insignificant whitespace. -/
def skipWs (cs : List Char) : List Char :=
  cs.dropWhile jsonWs

/-- Read one hexadecimal digit (either case). -/
def parseHexDigit (c : Char) : Option Nat :=
  let n := c.toNat
  if 48 ≤ n ∧ n ≤ 57 then some (n - 48)
  else if 97 ≤ n ∧ n ≤ 102 then some (n - 87)
  else if 65 ≤ n ∧ n ≤ 70 then some (n - 55)
  else none

/-- Read four hexadecimal digits as one 16-bit value. -/
def parseHex4 (a b c d : Char) : Option Nat :=
  match parseHexDigit a, parseHexDigit b, parseHexDigit c, parseHexDigit d with
  | some ha, some hb, some hc, some hd => some (ha * 4096 + hb * 256 + hc * 16 + hd)
  | _, _, _, _ => none

/-- Prepend a character to the content of a string-body parse. -/
def consParsed (c : Char) : Option (List Char × List Char) → Option (List Char × List Char)
  | some (cs, rest) => some (c :: cs, rest)
  | none => none

/-- The outcome of scanning one step inside a JSON string literal: the
closing quote was reached, one content character was decoded, or the input
is ill-formed at this point. -/
inductive ScanStep where
  | closed (rest : List Char)
  | ch (c : Char) (rest : List Char)
  | bad
deriving DecidableEq, Repr

/-- Decode one backslash-u payload (four hex digits, possibly followed by a
second escape forming a surrogate pair), rejecting unpaired surrogates. -/
def scanUnicode : List Char → ScanStep
  | a :: b :: c :: d :: r =>
    match parseHex4 a b c d with
    | some n =>
      if 55296 ≤ n ∧ n < 56320 then
        match r with
        | x :: y :: a2 :: b2 :: c2 :: d2 :: r2 =>
          if x = '\\' ∧ y = 'u' then
            match parseHex4 a2 b2 c2 d2 with
            | some m =>
              if 56320 ≤ m ∧ m < 57344 then
                ScanStep.ch (Char.ofNat (65536 + (n - 55296) * 1024 + (m - 56320))) r2
              else ScanStep.bad
            | none => ScanStep.bad
          else ScanStep.bad
        | _ => ScanStep.bad
      else if 56320 ≤ n ∧ n < 57344 then ScanStep.bad
      else ScanStep.ch (Char.ofNat n) r
    | none => ScanStep.bad
  | _ => ScanStep.bad

/-- Decode what follows a backslash: a named escape or a backslash-u escape;
anything else is rejected. -/
def scanEscape : List Char → ScanStep
  | [] => ScanStep.bad
  | e :: r =>
    if e = '"' then ScanStep.ch '"' r
    else if e = '\\' then ScanStep.ch '\\' r
    else if e = '/' then ScanStep.ch '/' r
    else if e = 'b' then ScanStep.ch (Char.ofNat 8) r
    else if e = 'f' then ScanStep.ch (Char.ofNat 12) r
    else if e = 'n' then ScanStep.ch '\n' r
    else if e = 'r' then ScanStep.ch '\r' r
    else if e = 't' then ScanStep.ch '\t' r
    else if e = 'u' then scanUnicode r
    else ScanStep.bad

/-- Scan one step inside a JSON string literal: a closing quote ends the
string, a backslash starts an escape, raw control characters are rejected,
every other character stands for itself. -/
def scanOne : List Char → ScanStep
  | [] => ScanStep.bad
  | c :: rest =>
    if c.toNat = 34 then ScanStep.closed rest
    else if c.toNat = 92 then scanEscape rest
    else if c.toNat < 32 then ScanStep.bad
    else ScanStep.ch c rest

/-- The body of a JSON string literal after its opening quote, as `json.load`
reads it: scan characters until the closing quote. Each step consumes at
least one character, so `fuel` bounds the content length; callers pass the
input length, which always suffices. -/
def parseStringLoop : Nat → List Char → Option (List Char × List Char)
  | 0, _ => none
  | fuel + 1, cs =>
    match scanOne cs with
    | ScanStep.closed rest => some ([], rest)
    | ScanStep.ch c rest => consParsed c (parseStringLoop fuel rest)
    | ScanStep.bad => none

/-- Skip whitespace, then require the character `c`. -/
def expectChar (c : Char) (cs : List Char) : Option (List Char) :=
  match skipWs cs with
  | x :: rest => if x = c then some rest else none
  | [] => none

/-- Skip whitespace, then read one JSON string literal. -/
def parseJString (cs : List Char) : Option (String × List Char) :=
  match skipWs cs with
  | x :: rest =>
    if x.toNat = 34 then
      match parseStringLoop (rest.length + 1) rest with
      | some (content, r) => some (String.mk content, r)
      | none => none
    else none
  | [] => none

/-- One inner cache record: an object with exactly the keys `"title"` and
`"streaming"` (in that order, the shape this program writes), each mapped to
a string. Returns the record and the input after its closing brace. -/
def parseEntryValue (cs : List Char) : Option (CacheEntry × List Char) :=
  match expectChar '{' cs with
  | none => none
  | some r1 =>
    match parseJString r1 with
    | none => none
    | some (k1, r2) =>
      if k1 = "title" then
        match expectChar ':' r2 with
        | none => none
        | some r3 =>
          match parseJString r3 with
          | none => none
          | some (t, r4) =>
            match expectChar ',' r4 with
            | none => none
            | some r5 =>
              match parseJString r5 with
              | none => none
              | some (k2, r6) =>
                if k2 = "streaming" then
                  match expectChar ':' r6 with
                  | none => none
                  | some r7 =>
                    match parseJString r7 with
                    | none => none
                    | some (s, r8) =>
                      match expectChar '}' r8 with
                      | none => none
                      | some r9 => some (⟨t, s⟩, r9)
                else none
      else none

/-- The comma-separated top-level bindings of a non-empty cache object, up to
and including the closing brace. `fuel` bounds the number of bindings (each
binding consumes input, so the input length is always enough fuel). -/
def parseEntriesGo : Nat → List Char → Option (List (String × CacheEntry) × List Char)
  | 0, _ => none
  | fuel + 1, cs =>
    match parseJString cs with
    | none => none
    | some (url, r1) =>
      match expectChar ':' r1 with
      | none => none
      | some r2 =>
        match parseEntryValue r2 with
        | none => none
        | some (entry, r3) =>
          match skipWs r3 with
          | c :: rest =>
            if c = ',' then
              match parseEntriesGo fuel rest with
              | some (pairs, r4) => some ((url, entry) :: pairs, r4)
              | none => none
            else if c = '}' then some ([(url, entry)], rest)
            else none
          | [] => none

/-- `json.load` at line 30, restricted to the shape of the cache file this
program writes: a top-level object of url keys mapping to inner records.
Bindings are folded into a dict with `insertCache` (later duplicate keys
overwrite earlier ones, as for a Python dict); trailing content after the
object makes the parse fail, as does any other malformed content. -/
def json_load_cache (raw : String) : Option Cache :=
  match expectChar '{' raw.data with
  | none => none
  | some r1 =>
    match skipWs r1 with
    | [] => none
    | c :: rest =>
      if c = '}' then
        if skipWs rest = [] then some [] else none
      else
        match parseEntriesGo (r1.length + 1) r1 with
        | some (pairs, r2) =>
          if skipWs r2 = [] then
            some (pairs.foldl (fun acc p => insertCache acc p.1 p.2) [])
          else none
        | none => none

/-- Lines 25-33, `load_cache`: the cache file is an `Option String` (absent
or raw content). A missing file yields the empty mapping; content that
`json.load` rejects hits the `except` branch and yields the empty mapping.
The second component is the list of lines the function prints — `load_cache`
contains no print statement, so it is empty on every path. -/
def load_cache (file : Option String) : Cache × List String :=
  match file with
  | none => ([], [])
  | some raw =>
    match json_load_cache raw with
    | some c => (c, [])
    | none => ([], [])

/-- Lines 36-42, `save_cache`: serialize the whole mapping and overwrite the
cache file; an `IOError` (modelled by `writeOk = false`) leaves the file as
it was and prints a warning instead of raising. Returns the new file state
and the printed lines. -/
def save_cache (cache : Cache) (writeOk : Bool) (file : Option String) :
    Option String × List String :=
  if writeOk then (some (json_dump_cache cache), [])
  else (file, ["Warning: Could not save cache"])

/-! ## Theorems -/

/-- Claim C1 (code bug): the claim — and the source's own comment at line
270, "Only cache if we found actual streaming services (not errors or 'no
info')" — say a "no info" result is never written to the cache, but the
sentinel the fetcher actually produces is `"No streaming info available"`
(line 179) while the predicate at line 273 only excludes the prefix
`"Not streaming"`, which no producer emits. At the failing input — a fetched
film whose page has no watch div — `should_cache` accepts the sentinel and
the run writes it into the cache. -/
theorem noInfo_result_is_cached :
    should_cache "No streaming info available" = true ∧
    (runSeq true (fun _ => Except.ok ⟨none⟩) []
        (mkTasks [⟨"Film X", "urlX"⟩])).2.1 =
      [("urlX", ⟨"Film X", "No streaming info available"⟩)] := by
  decide

/-- Claim C2: when the film's url has a cache entry, `scrape_film_worker`
returns the result synthesized from the entry (`streaming` from the entry,
`cached = true`) and its fetch log is empty: no driver is acquired and no
availability lookup runs. -/
theorem cache_hit_short_circuit (i : Nat) (film : Film) (cache : Cache)
    (driverOk : Bool) (fetchPage : String → Except String FilmPage)
    (entry : CacheEntry) (h : cache.lookup film.url = some entry) :
    scrape_film_worker i film cache driverOk fetchPage =
      (⟨i, film.title, film.url, entry.streaming, true⟩, []) := by
  unfold scrape_film_worker
  rw [h]

/-- Witness for C2: a pre-populated cache for url `"film-a"` and a fetch
function that would fail if consulted; the worker still succeeds from the
cache alone. -/
theorem cache_hit_short_circuit_witness :
    scrape_film_worker 1 ⟨"Film A", "film-a"⟩ [("film-a", ⟨"Stored", "Netflix"⟩)]
        true (fun _ => Except.error "must not be invoked") =
      (⟨1, "Film A", "film-a", "Netflix", true⟩, []) :=
  cache_hit_short_circuit 1 ⟨"Film A", "film-a"⟩ [("film-a", ⟨"Stored", "Netflix"⟩)]
    true (fun _ => Except.error "must not be invoked") ⟨"Stored", "Netflix"⟩ (by decide)

/-- Claim C6: both failure modes of the worker surface as data, never as an
exception: a failed driver creation yields the fixed error string, and a
fetch that raises `e` yields `"Error: " ++ e` (the `try/except` in
`scrape_streaming_info`). Totality is the type of the embedding: the worker
returns a plain `FilmResult` for every input. -/
theorem worker_error_as_data (i : Nat) (film : Film) (cache : Cache)
    (fetchPage : String → Except String FilmPage) (e : String)
    (hmiss : cache.lookup film.url = none) :
    (scrape_film_worker i film cache false fetchPage).1.streaming =
        "Error: Could not create driver" ∧
    (fetchPage film.url = Except.error e →
      (scrape_film_worker i film cache true fetchPage).1.streaming = "Error: " ++ e) := by
  constructor
  · unfold scrape_film_worker
    rw [hmiss]
    rfl
  · intro hfail
    unfold scrape_film_worker
    rw [hmiss]
    simp [scrape_streaming_info, hfail]

/-- Witness for C6 at a concrete film, empty cache and a fetch that raises
`"timeout"`. -/
theorem worker_error_as_data_witness :
    (scrape_film_worker 1 ⟨"X", "urlX"⟩ [] false (fun _ => Except.error "timeout")).1.streaming =
        "Error: Could not create driver" ∧
    (scrape_film_worker 1 ⟨"X", "urlX"⟩ [] true (fun _ => Except.error "timeout")).1.streaming =
        "Error: timeout" := by
  have h := worker_error_as_data 1 ⟨"X", "urlX"⟩ [] (fun _ => Except.error "timeout")
    "timeout" (by decide)
  exact ⟨h.1, h.2 rfl⟩

/-- Claim C9: in the pool model, any state reachable from the submitted
batch has at most `mainMaxWorkers = 3` tasks in flight, whatever the batch
size. -/
theorem pool_concurrency_bound (tasks : List Nat) (s : PoolState)
    (h : PoolReach mainMaxWorkers (initPool tasks) s) :
    s.running.length ≤ mainMaxWorkers := by
  induction h with
  | refl => simp [initPool]
  | tail _ step ih =>
    cases step with
    | dispatch t rest running finished hfree =>
      simpa using hfree
    | complete pending r1 r2 finished t =>
      simp only [List.length_append, List.length_cons] at ih ⊢
      omega

/-- Witness for C9: a 12-item batch after three dispatches is reachable and
holds exactly 3 in-flight tasks, within the bound. -/
theorem pool_concurrency_bound_witness :
    PoolReach mainMaxWorkers (initPool [1, 2, 3, 4, 5, 6, 7, 8, 9, 10, 11, 12])
        ⟨[4, 5, 6, 7, 8, 9, 10, 11, 12], [3, 2, 1], []⟩ ∧
    (PoolState.mk [4, 5, 6, 7, 8, 9, 10, 11, 12] [3, 2, 1] []).running.length ≤
        mainMaxWorkers := by
  have h1 : PoolStep mainMaxWorkers (initPool [1, 2, 3, 4, 5, 6, 7, 8, 9, 10, 11, 12])
      ⟨[2, 3, 4, 5, 6, 7, 8, 9, 10, 11, 12], [1], []⟩ :=
    PoolStep.dispatch 1 _ [] [] (by decide)
  have h2 : PoolStep mainMaxWorkers ⟨[2, 3, 4, 5, 6, 7, 8, 9, 10, 11, 12], [1], []⟩
      ⟨[3, 4, 5, 6, 7, 8, 9, 10, 11, 12], [2, 1], []⟩ :=
    PoolStep.dispatch 2 _ [1] [] (by decide)
  have h3 : PoolStep mainMaxWorkers ⟨[3, 4, 5, 6, 7, 8, 9, 10, 11, 12], [2, 1], []⟩
      ⟨[4, 5, 6, 7, 8, 9, 10, 11, 12], [3, 2, 1], []⟩ :=
    PoolStep.dispatch 3 _ [2, 1] [] (by decide)
  have hreach : PoolReach mainMaxWorkers (initPool [1, 2, 3, 4, 5, 6, 7, 8, 9, 10, 11, 12])
      ⟨[4, 5, 6, 7, 8, 9, 10, 11, 12], [3, 2, 1], []⟩ :=
    PoolReach.tail (PoolReach.tail (PoolReach.tail PoolReach.refl h1) h2) h3
  exact ⟨hreach, pool_concurrency_bound _ _ hreach⟩

/-- The worker's fetch log is empty or the single url of its film. -/
theorem worker_log_shape (i : Nat) (film : Film) (cache : Cache)
    (driverOk : Bool) (fetchPage : String → Except String FilmPage) :
    (scrape_film_worker i film cache driverOk fetchPage).2 = [] ∨
    (scrape_film_worker i film cache driverOk fetchPage).2 = [film.url] := by
  unfold scrape_film_worker
  cases cache.lookup film.url with
  | some entry => exact Or.inl rfl
  | none =>
    by_cases h : driverOk
    · simp [h]
    · simp [h]

/-- Claim C3, counterexample: two candidate items sharing the identity
`"dup"`, an empty cache and a fetch that raises on every call. Even in the
fully sequential schedule (each completion processed before the next worker
starts — the schedule most favourable to the claim), the identity `"dup"` is
fetched twice: the first result is an error, so it is not cached, and the
second worker misses the cache again. The claimed bound of at most one fetch
per distinct identity is false. -/
theorem duplicate_identity_fetched_twice :
    ¬ (((runSeq true (fun _ => Except.error "timeout") []
          (mkTasks [⟨"Dup Film", "dup"⟩, ⟨"Dup Film", "dup"⟩])).2.2).count "dup" ≤ 1) := by
  decide

/-- Claim C3 as amended: dispatch is per input item, not per identity — the
run never fetches an identity more often than it appears in the candidate
list (each worker fetches at most once, and only its own film's url), but
duplicate identities may each be fetched. -/
theorem fetch_count_at_most_item_count (u : String) (driverOk : Bool)
    (fetchPage : String → Except String FilmPage) (tasks : List TaskInfo) :
    ∀ cache : Cache,
      ((runSeq driverOk fetchPage cache tasks).2.2).count u ≤
        (tasks.filter (fun t => t.film.url = u)).length := by
  induction tasks with
  | nil => intro cache; simp [runSeq]
  | cons info rest ih =>
    intro cache
    simp only [runSeq, List.count_append]
    have hrec := ih (processFuture cache info
      (Except.ok (scrape_film_worker info.index info.film cache driverOk fetchPage).1)).2
    have hlen : ((info :: rest).filter (fun t => decide (t.film.url = u))).length =
        (rest.filter (fun t => decide (t.film.url = u))).length +
          (if info.film.url = u then 1 else 0) := by
      by_cases hu : info.film.url = u <;> simp [List.filter_cons, hu]
    have hcount :
        ((scrape_film_worker info.index info.film cache driverOk fetchPage).2).count u ≤
          (if info.film.url = u then 1 else 0) := by
      rcases worker_log_shape info.index info.film cache driverOk fetchPage with hl | hl <;>
        rw [hl]
      · simp
      · by_cases hu : info.film.url = u
        · simp [List.count_cons, hu]
        · simp [List.count_cons, Ne.symm hu]
    rw [hlen]
    omega

/-- The collection loop appends exactly one result per completed future. -/
theorem collectLoop_length (completed : List (TaskInfo × Except String FilmResult)) :
    ∀ cache : Cache, ((collectLoop cache completed).1).length = completed.length := by
  induction completed with
  | nil => intro cache; rfl
  | cons p rest ih => intro cache; simp [collectLoop, ih]

/-- One task is submitted per discovered film. -/
theorem mkTasks_length (films : List Film) : (mkTasks films).length = films.length := by
  simp [mkTasks]

/-- Claim C5: whatever order the futures complete in — and even when some of
them raise (`Except.error` outcomes, turned into error-valued results by the
`except` branch) — the loop collects exactly one result per input film. -/
theorem one_result_per_input_item (films : List Film) (cache0 : Cache)
    (completed : List (TaskInfo × Except String FilmResult))
    (h : List.Perm (completed.map Prod.fst) (mkTasks films)) :
    ((collectLoop cache0 completed).1).length = films.length := by
  have h1 := collectLoop_length completed cache0
  have h2 : completed.length = (mkTasks films).length := by
    have := h.length_eq
    simpa using this
  rw [h1, h2, mkTasks_length]

/-- Witness for C5: two films, completing out of order, the first completion
a raised exception — still exactly 2 results. -/
theorem one_result_per_input_item_witness :
    ((collectLoop []
        [(⟨2, ⟨"B", "ub"⟩⟩, Except.error "boom"),
         (⟨1, ⟨"A", "ua"⟩⟩, Except.ok ⟨1, "A", "ua", "Netflix", false⟩)]).1).length =
      [(⟨"A", "ua"⟩ : Film), ⟨"B", "ub"⟩].length :=
  one_result_per_input_item [⟨"A", "ua"⟩, ⟨"B", "ub"⟩] []
    [(⟨2, ⟨"B", "ub"⟩⟩, Except.error "boom"),
     (⟨1, ⟨"A", "ua"⟩⟩, Except.ok ⟨1, "A", "ua", "Netflix", false⟩)] (by decide)

/-- Looking a url up in the title-forgetting view is looking it up in the
cache and keeping only the `streaming` field. -/
theorem lookup_cacheStreams (c : Cache) (url : String) :
    (cacheStreams c).lookup url = (c.lookup url).map CacheEntry.streaming := by
  induction c with
  | nil => rfl
  | cons p rest ih =>
    obtain ⟨k, v⟩ := p
    simp only [cacheStreams, List.map_cons, List.lookup]
    cases hb : url == k
    · simpa [cacheStreams] using ih
    · rfl

/-- Claim C10: the worker's behaviour does not depend on the titles stored
in the cache (two caches with the same `cacheStreams` view produce the same
result and the same fetch log), and on a cache hit the result's title comes
from the current run's discovered film, not from the stored entry. -/
theorem cached_title_from_current_discovery (i : Nat) (film : Film)
    (c1 c2 : Cache) (driverOk : Bool) (fetchPage : String → Except String FilmPage)
    (hview : cacheStreams c1 = cacheStreams c2) :
    scrape_film_worker i film c1 driverOk fetchPage =
      scrape_film_worker i film c2 driverOk fetchPage ∧
    (∀ entry, c1.lookup film.url = some entry →
      (scrape_film_worker i film c1 driverOk fetchPage).1.title = film.title) := by
  have hl : (c1.lookup film.url).map CacheEntry.streaming =
      (c2.lookup film.url).map CacheEntry.streaming := by
    rw [← lookup_cacheStreams, ← lookup_cacheStreams, hview]
  constructor
  · unfold scrape_film_worker
    cases h1 : c1.lookup film.url with
    | some e1 =>
      cases h2 : c2.lookup film.url with
      | some e2 =>
        rw [h1, h2] at hl
        simp only [Option.map_some', Option.some.injEq] at hl
        simp [hl]
      | none => rw [h1, h2] at hl; simp at hl
    | none =>
      cases h2 : c2.lookup film.url with
      | some e2 => rw [h1, h2] at hl; simp at hl
      | none => rfl
  · intro entry hhit
    unfold scrape_film_worker
    rw [hhit]

/-- Witness for C10: two caches holding different titles for `"u"` but the
same streaming value; the worker returns the same result on both, titled
with the current run's `"Current"` rather than either stored title. -/
theorem cached_title_from_current_discovery_witness :
    scrape_film_worker 1 ⟨"Current", "u"⟩ [("u", ⟨"Old stored", "Netflix"⟩)] true
        (fun _ => Except.error "down") =
      scrape_film_worker 1 ⟨"Current", "u"⟩ [("u", ⟨"Other stored", "Netflix"⟩)] true
        (fun _ => Except.error "down") ∧
    (scrape_film_worker 1 ⟨"Current", "u"⟩ [("u", ⟨"Old stored", "Netflix"⟩)] true
        (fun _ => Except.error "down")).1.title = "Current" := by
  have h := cached_title_from_current_discovery 1 ⟨"Current", "u"⟩
    [("u", ⟨"Old stored", "Netflix"⟩)] [("u", ⟨"Other stored", "Netflix"⟩)] true
    (fun _ => Except.error "down") (by decide)
  exact ⟨h.1, h.2 ⟨"Old stored", "Netflix"⟩ (by decide)⟩

/-- Claim C4: let the collected results carry exactly the ordinals `1..n`
(in whatever order the tasks completed). Sorting by `index` — line 300 —
yields a report whose ordinals are `1, 2, ..., n` ascending, i.e. the
discovery order, and the report is a permutation of the collected results
(nothing lost or duplicated), for every completion order. -/
theorem assemble_restores_discovery_order (rs : List FilmResult) (n : Nat)
    (h : List.Perm (rs.map FilmResult.index) (List.range' 1 n)) :
    (sortByIndex rs).map FilmResult.index = List.range' 1 n ∧
    List.Perm (sortByIndex rs) rs := by
  have hperm : List.Perm (sortByIndex rs) rs := List.mergeSort_perm rs _
  refine ⟨?_, hperm⟩
  have hpw : List.Pairwise (fun a b : FilmResult => a.index ≤ b.index) (sortByIndex rs) := by
    have hs := @List.sorted_mergeSort FilmResult
      (fun a b : FilmResult => decide (a.index ≤ b.index))
      (fun a b c hab hbc => by
        simp only [decide_eq_true_eq] at *
        omega)
      (fun a b => by
        simp only [Bool.or_eq_true, decide_eq_true_eq]
        omega)
      rs
    exact hs.imp (fun hab => by simpa using hab)
  have hmap : List.Sorted (· ≤ ·) ((sortByIndex rs).map FilmResult.index) :=
    List.Pairwise.map _ (fun a b hab => hab) hpw
  have hperm2 : List.Perm ((sortByIndex rs).map FilmResult.index) (List.range' 1 n) :=
    (hperm.map FilmResult.index).trans h
  have hr : List.Sorted (· ≤ ·) (List.range' 1 n) :=
    (List.pairwise_lt_range' 1 n).imp Nat.le_of_lt
  exact List.eq_of_perm_of_sorted hperm2 hmap hr

/-- Witness for C4: three results arriving in completion order 3, 1, 2 are
reassembled into ordinal order 1, 2, 3. -/
theorem assemble_restores_discovery_order_witness :
    (sortByIndex [⟨3, "C", "uc", "Hulu", false⟩, ⟨1, "A", "ua", "Netflix", true⟩,
        ⟨2, "B", "ub", "Max", false⟩]).map FilmResult.index = List.range' 1 3 ∧
    List.Perm
      (sortByIndex [⟨3, "C", "uc", "Hulu", false⟩, ⟨1, "A", "ua", "Netflix", true⟩,
        ⟨2, "B", "ub", "Max", false⟩])
      [⟨3, "C", "uc", "Hulu", false⟩, ⟨1, "A", "ua", "Netflix", true⟩,
        ⟨2, "B", "ub", "Max", false⟩] :=
  assemble_restores_discovery_order
    [⟨3, "C", "uc", "Hulu", false⟩, ⟨1, "A", "ua", "Netflix", true⟩,
      ⟨2, "B", "ub", "Max", false⟩] 3 (by decide)

/-- Valid scalar values: below the surrogate range or above it. -/
theorem char_toNat_ranges (c : Char) :
    c.toNat < 55296 ∨ (57343 < c.toNat ∧ c.toNat < 1114112) := by
  have e : c.toNat = c.val.toNat := rfl
  rcases c.valid with h | h
  · left
    rw [e]
    exact_mod_cast h
  · right
    omega

theorem toNat_ofNat_lt {n : Nat} (h : n < 55296) : (Char.ofNat n).toNat = n := by
  unfold Char.ofNat
  have hv : n.isValidChar := Or.inl h
  simp [hv]
  rfl

theorem toNat_ofNat_gt {n : Nat} (h1 : 57343 < n) (h2 : n < 1114112) :
    (Char.ofNat n).toNat = n := by
  unfold Char.ofNat
  have hv : n.isValidChar := Or.inr ⟨h1, h2⟩
  simp [hv]
  rfl

theorem eq_of_toNat_eq {c d : Char} (h : c.toNat = d.toNat) : c = d := by
  have h1 := Char.ofNat_toNat c
  rw [h, Char.ofNat_toNat d] at h1
  exact h1.symm

theorem parseHexDigit_hexDigitChar {k : Nat} (h : k < 16) :
    parseHexDigit (hexDigitChar k) = some k := by
  unfold hexDigitChar parseHexDigit
  by_cases h10 : k < 10
  · rw [if_pos h10]
    have ht : (Char.ofNat (48 + k)).toNat = 48 + k := toNat_ofNat_lt (by omega)
    simp only [ht]
    rw [if_pos (by omega : 48 ≤ 48 + k ∧ 48 + k ≤ 57)]
    have : 48 + k - 48 = k := by omega
    rw [this]
  · rw [if_neg h10]
    have ht : (Char.ofNat (87 + k)).toNat = 87 + k := toNat_ofNat_lt (by omega)
    simp only [ht]
    rw [if_neg (by omega : ¬ (48 ≤ 87 + k ∧ 87 + k ≤ 57))]
    rw [if_pos (by omega : 97 ≤ 87 + k ∧ 87 + k ≤ 102)]
    have : 87 + k - 87 = k := by omega
    rw [this]

theorem parseHex4_uDigits {n : Nat} (h : n < 65536) :
    parseHex4 (hexDigitChar (n / 4096 % 16)) (hexDigitChar (n / 256 % 16))
      (hexDigitChar (n / 16 % 16)) (hexDigitChar (n % 16)) = some n := by
  unfold parseHex4
  rw [parseHexDigit_hexDigitChar (by omega), parseHexDigit_hexDigitChar (by omega),
      parseHexDigit_hexDigitChar (by omega), parseHexDigit_hexDigitChar (by omega)]
  simp only []
  congr 1
  omega



theorem scanUnicode_bmp {n : Nat} (h : n < 65536)
    (h1 : ¬ (55296 ≤ n ∧ n < 56320)) (h2 : ¬ (56320 ≤ n ∧ n < 57344))
    (r : List Char) :
    scanUnicode (uDigits n ++ r) = ScanStep.ch (Char.ofNat n) r := by
  simp only [uDigits, List.cons_append, List.nil_append, scanUnicode]
  rw [parseHex4_uDigits h]
  simp only []
  rw [if_neg h1, if_neg h2]

theorem scanUnicode_pair {hi lo : Nat} (hh1 : 55296 ≤ hi) (hh2 : hi < 56320)
    (hl1 : 56320 ≤ lo) (hl2 : lo < 57344) (r : List Char) :
    scanUnicode (uDigits hi ++ ('\\' :: ('u' :: (uDigits lo ++ r)))) =
      ScanStep.ch (Char.ofNat (65536 + (hi - 55296) * 1024 + (lo - 56320))) r := by
  simp only [uDigits, List.cons_append, List.nil_append, scanUnicode]
  rw [parseHex4_uDigits (by omega)]
  simp only []
  rw [if_pos (by omega : 55296 ≤ hi ∧ hi < 56320)]
  rw [if_pos (⟨trivial, trivial⟩ : True ∧ True)]
  rw [parseHex4_uDigits (by omega)]
  simp only []
  rw [if_pos (by omega : 56320 ≤ lo ∧ lo < 57344)]



theorem scanOne_backslash (x : List Char) : scanOne ('\\' :: x) = scanEscape x := rfl

theorem scanEscape_u (x : List Char) : scanEscape ('u' :: x) = scanUnicode x := rfl

theorem scanOne_encode (c : Char) (tail : List Char) :
    scanOne (encodeChar c ++ tail) = ScanStep.ch c tail := by
  have hv := char_toNat_ranges c
  by_cases h34 : c.toNat = 34
  · have hc : c = '"' := eq_of_toNat_eq (by rw [h34]; rfl)
    subst hc
    rfl
  by_cases h92 : c.toNat = 92
  · have hc : c = '\\' := eq_of_toNat_eq (by rw [h92]; rfl)
    subst hc
    rfl
  by_cases h8 : c.toNat = 8
  · have hc : c = Char.ofNat 8 := eq_of_toNat_eq (by rw [h8, toNat_ofNat_lt (by omega)])
    subst hc
    rfl
  by_cases h9 : c.toNat = 9
  · have hc : c = '\t' := eq_of_toNat_eq (by rw [h9]; rfl)
    subst hc
    rfl
  by_cases h10 : c.toNat = 10
  · have hc : c = '\n' := eq_of_toNat_eq (by rw [h10]; rfl)
    subst hc
    rfl
  by_cases h12 : c.toNat = 12
  · have hc : c = Char.ofNat 12 := eq_of_toNat_eq (by rw [h12, toNat_ofNat_lt (by omega)])
    subst hc
    rfl
  by_cases h13 : c.toNat = 13
  · have hc : c = '\r' := eq_of_toNat_eq (by rw [h13]; rfl)
    subst hc
    rfl
  by_cases hp : 32 ≤ c.toNat ∧ c.toNat ≤ 126
  · have he : encodeChar c = [c] := by
      simp only [encodeChar]
      rw [if_neg h34, if_neg h92, if_neg h8, if_neg h9, if_neg h10, if_neg h12, if_neg h13,
        if_pos hp]
    rw [he, List.cons_append, List.nil_append]
    simp only [scanOne]
    rw [if_neg h34, if_neg h92, if_neg (by omega : ¬ c.toNat < 32)]
  by_cases hbmp : c.toNat < 65536
  · have he : encodeChar c = uEscape c.toNat := by
      simp only [encodeChar]
      rw [if_neg h34, if_neg h92, if_neg h8, if_neg h9, if_neg h10, if_neg h12, if_neg h13,
        if_neg hp, if_pos hbmp]
    rw [he]
    simp only [uEscape, List.cons_append]
    rw [scanOne_backslash, scanEscape_u,
      scanUnicode_bmp hbmp (by omega) (by omega) tail, Char.ofNat_toNat]
  · have he : encodeChar c =
        uEscape (55296 + (c.toNat - 65536) / 1024) ++ uEscape (56320 + (c.toNat - 65536) % 1024) := by
      simp only [encodeChar]
      rw [if_neg h34, if_neg h92, if_neg h8, if_neg h9, if_neg h10, if_neg h12, if_neg h13,
        if_neg hp, if_neg hbmp]
    rw [he]
    simp only [uEscape, List.cons_append, List.append_assoc]
    rw [scanOne_backslash, scanEscape_u]
    rw [@scanUnicode_pair (55296 + (c.toNat - 65536) / 1024) (56320 + (c.toNat - 65536) % 1024)
      (by omega) (by omega) (by omega) (by omega) tail]
    have harg : 65536 + (55296 + (c.toNat - 65536) / 1024 - 55296) * 1024 +
        (56320 + (c.toNat - 65536) % 1024 - 56320) = c.toNat := by omega
    rw [harg, Char.ofNat_toNat]



theorem scanOne_quote (x : List Char) : scanOne ('"' :: x) = ScanStep.closed x := rfl

theorem encodeChar_length_pos (c : Char) : 1 ≤ (encodeChar c).length := by
  simp only [encodeChar]
  repeat' split
  all_goals simp [uEscape, uDigits]

theorem parseStringLoop_encode (l : List Char) :
    ∀ (fuel : Nat) (rest : List Char), (l.flatMap encodeChar).length < fuel →
    parseStringLoop fuel (l.flatMap encodeChar ++ '"' :: rest) = some (l, rest) := by
  induction l with
  | nil =>
    intro fuel rest h
    match fuel with
    | f + 1 =>
      simp only [List.flatMap_nil, List.nil_append, parseStringLoop, scanOne_quote]
  | cons c l ih =>
    intro fuel rest h
    match fuel with
    | 0 => exact absurd h (by omega)
    | f + 1 =>
      have hlen : (l.flatMap encodeChar).length < f := by
        have h1 := encodeChar_length_pos c
        simp only [List.flatMap_cons, List.length_append] at h
        omega
      simp only [List.flatMap_cons, List.append_assoc, parseStringLoop, scanOne_encode]
      rw [ih f rest hlen]
      rfl



theorem skipWs_quote (x : List Char) : skipWs ('"' :: x) = '"' :: x := rfl

theorem parseJString_nl (x : List Char) : parseJString ('\n' :: x) = parseJString x := rfl

theorem parseJString_sp (x : List Char) : parseJString (' ' :: x) = parseJString x := rfl

theorem expectChar_nl (c : Char) (x : List Char) : expectChar c ('\n' :: x) = expectChar c x := rfl

theorem expectChar_sp (c : Char) (x : List Char) : expectChar c (' ' :: x) = expectChar c x := rfl

theorem expectChar_colon (x : List Char) : expectChar ':' (':' :: x) = some x := rfl

theorem expectChar_lbrace (x : List Char) : expectChar '{' ('{' :: x) = some x := rfl

theorem expectChar_rbrace (x : List Char) : expectChar '}' ('}' :: x) = some x := rfl

theorem expectChar_comma (x : List Char) : expectChar ',' (',' :: x) = some x := rfl

theorem parseJString_dumpString (s : String) (rest : List Char) :
    parseJString (dumpString s ++ rest) = some (s, rest) := by
  simp only [dumpString, List.cons_append, List.append_assoc, List.singleton_append,
    List.nil_append, parseJString, skipWs_quote]
  rw [if_pos (show ('"').toNat = 34 from rfl)]
  rw [parseStringLoop_encode s.data _ rest (by simp [List.length_append]; omega)]



theorem parseEntryValue_dump (e : CacheEntry) (rest : List Char) :
    parseEntryValue (' ' :: (dumpEntryValue e ++ rest)) = some (e, rest) := by
  simp only [dumpEntryValue, List.cons_append, List.append_assoc, List.nil_append,
    parseEntryValue, expectChar_sp, expectChar_nl, expectChar_lbrace, expectChar_colon,
    expectChar_comma, expectChar_rbrace, parseJString_nl, parseJString_sp,
    parseJString_dumpString]
  rfl



theorem skipWs_nl (x : List Char) : skipWs ('\n' :: x) = skipWs x := rfl

theorem skipWs_sp (x : List Char) : skipWs (' ' :: x) = skipWs x := rfl

theorem skipWs_comma (x : List Char) : skipWs (',' :: x) = ',' :: x := rfl

theorem skipWs_rbrace (x : List Char) : skipWs ('}' :: x) = '}' :: x := rfl

theorem parseEntriesGo_dump (ps : List (String × CacheEntry)) :
    ∀ (fuel : Nat) (rest : List Char), ps ≠ [] → ps.length ≤ fuel →
    parseEntriesGo fuel ('\n' :: (dumpPairs ps ++ '\n' :: '}' :: rest)) = some (ps, rest) := by
  induction ps with
  | nil => intro fuel rest hne _; exact absurd rfl hne
  | cons p qs ih =>
    intro fuel rest _ hfuel
    match fuel with
    | 0 => exact absurd hfuel (by simp)
    | f + 1 =>
      cases qs with
      | nil =>
        simp +decide only [dumpPairs, dumpPair, List.cons_append, List.append_assoc,
          List.nil_append, parseEntriesGo, parseJString_nl, parseJString_sp,
          parseJString_dumpString, expectChar_colon, parseEntryValue_dump,
          skipWs_nl, skipWs_rbrace]
        rfl
      | cons q qs' =>
        have hrec := ih f rest (by simp) (by simpa using Nat.lt_succ_iff.mp (Nat.lt_of_lt_of_le (by simp) hfuel))
        simp +decide only [dumpPairs, dumpPair, List.cons_append, List.append_assoc,
          List.nil_append, parseEntriesGo, parseJString_nl, parseJString_sp,
          parseJString_dumpString, expectChar_colon, parseEntryValue_dump,
          skipWs_comma]
        rw [hrec]
        rfl



theorem stringMk_data (l : List Char) : (String.mk l).data = l := rfl

theorem dumpPairs_length (ps : List (String × CacheEntry)) :
    ps.length ≤ (dumpPairs ps).length := by
  induction ps with
  | nil => simp [dumpPairs]
  | cons p qs ih =>
    cases qs with
    | nil => simp [dumpPairs, dumpPair]
    | cons q qs' =>
      simp only [dumpPairs, List.length_append, List.length_cons]
      simp only [List.length_cons] at ih ⊢
      have : 1 ≤ (dumpPair p).length := by simp [dumpPair]
      omega

theorem dumpPairs_cons_shape (p : String × CacheEntry) (qs : List (String × CacheEntry)) :
    ∃ y, dumpPairs (p :: qs) = ' ' :: ' ' :: '"' :: y := by
  cases qs with
  | nil =>
    refine ⟨p.1.data.flatMap encodeChar ++ '"' :: ':' :: ' ' :: dumpEntryValue p.2, ?_⟩
    simp [dumpPairs, dumpPair, dumpString, List.cons_append, List.append_assoc]
  | cons q qs' =>
    refine ⟨p.1.data.flatMap encodeChar ++
      '"' :: ':' :: ' ' :: (dumpEntryValue p.2 ++ ',' :: '\n' :: dumpPairs (q :: qs')), ?_⟩
    simp [dumpPairs, dumpPair, dumpString, List.cons_append, List.append_assoc]

theorem insertCache_fresh (c : Cache) (k : String) (v : CacheEntry)
    (h : k ∉ c.map Prod.fst) : insertCache c k v = c ++ [(k, v)] := by
  induction c with
  | nil => rfl
  | cons p rest ih =>
    obtain ⟨k', v'⟩ := p
    simp only [List.map_cons, List.mem_cons, not_or] at h
    simp only [insertCache]
    rw [if_neg (Ne.symm h.1)]
    rw [ih h.2]
    rfl

theorem foldl_insertCache (ps : List (String × CacheEntry)) :
    ∀ acc : Cache, (ps.map Prod.fst).Nodup →
    (∀ k ∈ ps.map Prod.fst, k ∉ acc.map Prod.fst) →
    ps.foldl (fun a p => insertCache a p.1 p.2) acc = acc ++ ps := by
  induction ps with
  | nil => intro acc _ _; simp
  | cons p qs ih =>
    intro acc hnd hdisj
    simp only [List.map_cons, List.nodup_cons] at hnd
    simp only [List.foldl_cons]
    rw [insertCache_fresh acc p.1 p.2 (hdisj p.1 (by simp))]
    have hfresh : ∀ k ∈ qs.map Prod.fst, k ∉ (acc ++ [p]).map Prod.fst := by
      intro k hk
      have hk' : k ∈ List.map Prod.fst (p :: qs) := by
        simp only [List.map_cons, List.mem_cons]
        exact Or.inr hk
      intro hmem
      rw [List.map_append, List.mem_append] at hmem
      rcases hmem with hka | hkp
      · exact hdisj k hk' hka
      · simp only [List.map_cons, List.map_nil, List.mem_singleton] at hkp
        exact hnd.1 (hkp ▸ hk)
    rw [ih (acc ++ [p]) hnd.2 hfresh]
    simp



theorem json_load_cache_dump (cache : Cache) (h : (cache.map Prod.fst).Nodup) :
    json_load_cache (json_dump_cache cache) = some cache := by
  cases cache with
  | nil => rfl
  | cons c0 cs =>
    obtain ⟨y, hy⟩ := dumpPairs_cons_shape c0 cs
    have hskip : skipWs ('\n' :: (dumpPairs (c0 :: cs) ++ '\n' :: '}' :: [])) =
        '"' :: (y ++ '\n' :: '}' :: []) := by
      rw [hy]
      rfl
    have hfuel : (c0 :: cs).length ≤
        ('\n' :: (dumpPairs (c0 :: cs) ++ '\n' :: '}' :: [])).length + 1 := by
      have := dumpPairs_length (c0 :: cs)
      simp only [List.length_cons, List.length_append] at *
      omega
    simp only [json_dump_cache, json_load_cache, stringMk_data, List.cons_append,
      List.nil_append, expectChar_lbrace, hskip]
    rw [if_neg (by decide : ¬ ('"' : Char) = '}')]
    rw [parseEntriesGo_dump (c0 :: cs) _ [] (by simp) hfuel]
    simp only []
    rw [if_pos (by rfl : skipWs [] = [])]
    rw [foldl_insertCache (c0 :: cs) [] h (by simp)]
    simp



/-- Claim C8: for every cache mapping whose keys are distinct (every mapping
a Python dict can hold), writing it with `save_cache` and reading it back
with `load_cache` yields an equal mapping, through the full serialized file
content — including string escaping of quotes, backslashes, control
characters and non-ASCII titles. -/
theorem save_then_load_roundtrip (cache : Cache) (file : Option String)
    (h : (cache.map Prod.fst).Nodup) :
    load_cache (save_cache cache true file).1 = (cache, []) := by
  have hsave : (save_cache cache true file).1 = some (json_dump_cache cache) := by
    simp [save_cache]
  rw [hsave]
  simp only [load_cache]
  rw [json_load_cache_dump cache h]

/-- Witness for C8 at the spec's own test mapping
`\x7b "url1": \x7btitle: "A", streaming: "Netflix"\x7d\x7d`. -/
theorem save_then_load_roundtrip_witness :
    load_cache (save_cache [("url1", ⟨"A", "Netflix"⟩)] true none).1 =
      ([("url1", ⟨"A", "Netflix"⟩)], []) :=
  save_then_load_roundtrip [("url1", ⟨"A", "Netflix"⟩)] none (by decide)

/-- Claim C7, counterexample: on malformed content (`"garbage"`) the claim
asserts `load_cache` returns the empty mapping AND logs a warning; the
function does return the empty mapping but its `except` branch contains no
print statement, so the warning list is empty and the claim as stated is
false. -/
theorem load_malformed_prints_no_warning :
    ¬ ((load_cache (some "garbage")).1 = [] ∧ (load_cache (some "garbage")).2 ≠ []) := by
  decide

/-- Claim C7 as amended: cache load returns an empty mapping (not an error)
when the cache file is missing, and on malformed content returns an empty
mapping silently — without logging a warning — rather than crashing. -/
theorem load_cache_missing_or_malformed (raw : String)
    (hbad : json_load_cache raw = none) :
    load_cache none = ([], []) ∧ load_cache (some raw) = ([], []) := by
  refine ⟨rfl, ?_⟩
  simp [load_cache, hbad]

/-- Witness for C7 (amended) at the concrete garbage file content. -/
theorem load_cache_missing_or_malformed_witness :
    load_cache none = ([], []) ∧ load_cache (some "garbage") = ([], []) :=
  load_cache_missing_or_malformed "garbage" (by decide)

end LbdStreaming
